import Mathlib

/-
Verification development for the zetafold partition-function engine
(src/alphafold/partition.py).  The dynamic program is embedded shallowly:
Python floats become exact rationals, the N x N tables become total
functions on integer indices updated pointwise, and each `update_*`
routine of the source becomes a pure state transformer.  Index arithmetic
uses integer `%` (Lean's `Int.emod`), which agrees with Python's `%` for a
positive modulus.
-/

namespace Zetafold

set_option maxRecDepth 1000000

/-- Parameter bundle, mirroring `AlphaFoldParams.__init__`. -/
structure Params where
  C_init : ℚ
  l : ℚ
  Kd_BP : ℚ
  l_BP : ℚ
  C_eff_stacked_pair : ℚ
  K_coax : ℚ
  l_coax : ℚ
  C_std : ℚ
  min_loop_length : ℤ
  allow_strained_3WJ : Bool
deriving DecidableEq

/-- The default parameter values set in `AlphaFoldParams.__init__`
(0.5 = 1/2, 0.0002 = 1/5000, 0.2 = 1/5, 1e4 = 10000). -/
def defaultParams : Params :=
  { C_init := 1
    l := 1/2
    Kd_BP := 1/5000
    l_BP := 1/5
    C_eff_stacked_pair := 10000
    K_coax := 100
    l_coax := 200
    C_std := 1
    min_loop_length := 1
    allow_strained_3WJ := false }

/-- Input to `partition`: either a single sequence string or a list of
strand strings (`sequences` in the source); strings are lists of chars. -/
inductive Seqs where
  | single : List Char → Seqs
  | strands : List (List Char) → Seqs

/-- Concatenated sequence, as built in `initialize_sequence_information`. -/
def Seqs.sequence : Seqs → List Char
  | .single s => s
  | .strands ss => ss.foldl (fun acc s => acc ++ s) []

/-- Mark the inter-strand cutpoints: for each strand except the last,
`is_cutpoint[L-1] = True` where L is the running total length. -/
def strandCutpoints (ss : List (List Char)) (cs : List Bool) : List Bool :=
  (ss.dropLast.foldl (fun (acc : List Bool × ℕ) s =>
      let L := acc.2 + s.length
      (acc.1.set (L - 1) true, L)) (cs, 0)).1

/-- Cutpoint flags from `initialize_sequence_information`: strand
boundaries (list input only), then position N-1 forced when not circular. -/
def Seqs.cutpoints : Seqs → Bool → List Bool
  | .single s, circle =>
      let base := List.replicate s.length false
      if circle then base else base.set (s.length - 1) true
  | .strands ss, circle =>
      let seqAll := (Seqs.strands ss).sequence
      let base := strandCutpoints ss (List.replicate seqAll.length false)
      if circle then base else base.set (seqAll.length - 1) true

/-- Immutable sequence state: concatenated sequence, cutpoint flags and
parameters. -/
structure Env where
  seq : List Char
  cut : List Bool
  params : Params

def mkEnv (s : Seqs) (circle : Bool) (p : Params) : Env :=
  { seq := s.sequence, cut := s.cutpoints circle, params := p }

def Env.N (e : Env) : ℤ := (e.seq.length : ℤ)

/-- Cutpoint lookup; all source accesses are through an index reduced
mod N (or Python's negative index -1, which agrees with emod). -/
def Env.isCut (e : Env) (x : ℤ) : Bool := e.cut.getD ((x % e.N).toNat) false

/-- Nucleotide at a (mod-N reduced) position. -/
def Env.base (e : Env) (x : ℤ) : Char := e.seq.getD ((x % e.N).toNat) '?'

/-- `any_intervening_cutpoint[i][j]` from
`initialize_any_intervening_cutpoint`: scanning offsets o = 0,1,... from
i, the flag recorded at j = (i+o) % N is whether a cutpoint was seen at
any earlier offset; hence it is true iff some position i+o' with
o' < (j-i) % N is a cutpoint. -/
def Env.anyCut (e : Env) (i j : ℤ) : Bool :=
  (List.range ((j - i) % e.N).toNat).any (fun o : ℕ => e.isCut (i + (o : ℤ)))

/-- Python `range(a, b)` over integers. -/
def irange (a b : ℤ) : List ℤ :=
  (List.range (b - a).toNat).map (fun n : ℕ => a + (n : ℤ))

/-- Accumulation of a loop `for k in range(a,b): acc += f k`. -/
def sumR (l : List ℤ) (f : ℤ → ℚ) : ℚ := (l.map f).sum

/-- A dynamic-programming table (the `Q` array of
`DynamicProgrammingData`), as a total function on integer indices. -/
abbrev Tbl : Type := ℤ → ℤ → ℚ

/-- Pointwise write of one table cell. -/
def upd (t : Tbl) (i j : ℤ) (v : ℚ) : Tbl :=
  fun a b => if a = i ∧ b = j then v else t a b

/-- The five core tables plus the two derived singlet-exclusion tables. -/
structure Tables where
  Z_BP : Tbl
  Z_cut : Tbl
  Z_coax : Tbl
  C_eff : Tbl
  C_eff_no_coax_singlet : Tbl
  C_eff_no_BP_singlet : Tbl
  Z_linear : Tbl

/-- Initialization from `initialize_dynamic_programming_matrices`:
`Z_linear(i,i) = 1`, `C_eff(i,i) = C_init` (copied into both singlet
tables by `deepcopy`), everything else 0. -/
def initTables (e : Env) : Tables :=
  { Z_BP := fun _ _ => 0
    Z_cut := fun _ _ => 0
    Z_coax := fun _ _ => 0
    C_eff := fun i j => if i = j then e.params.C_init else 0
    C_eff_no_coax_singlet := fun i j => if i = j then e.params.C_init else 0
    C_eff_no_BP_singlet := fun i j => if i = j then e.params.C_init else 0
    Z_linear := fun i j => if i = j then 1 else 0 }

/-- One registered base-pair type (`BasePairType`): the `''` entries of
the generic wildcard are modelled by `none`. -/
structure BasePairType where
  nt1 : Option Char
  nt2 : Option Char
  Kd_BP : ℚ
deriving DecidableEq

/-- `match_lowercase = (nt1 == '' and nt2 == '')`. -/
def BasePairType.match_lowercase (t : BasePairType) : Bool :=
  t.nt1 == none && t.nt2 == none

/-- The registry built by `initialize_base_pair_types`. -/
def basePairTypes (p : Params) : List BasePairType :=
  [ ⟨some 'C', some 'G', p.Kd_BP⟩
  , ⟨some 'G', some 'C', p.Kd_BP⟩
  , ⟨some 'A', some 'U', p.Kd_BP⟩
  , ⟨some 'U', some 'A', p.Kd_BP⟩
  , ⟨none, none, p.Kd_BP⟩ ]

/-- Nucleotide gate of `update_Z_BP`: a type matches position pair (i,j)
either by exact nucleotide identity or, for the wildcard, by equal
lowercase characters. -/
def bptMatch (e : Env) (t : BasePairType) (i j : ℤ) : Bool :=
  if t.match_lowercase then
    (e.base i).isLower && (e.base j).isLower && (e.base i == e.base j)
  else
    (some (e.base i) == t.nt1) && (some (e.base j) == t.nt2)

/-- Value accumulated by the loop of `update_Z_cut`: combine two
independent segments split at a cutpoint c in [i, i+offset). -/
def Z_cut_val (e : Env) (st : Tables) (i j : ℤ) : ℚ :=
  let N := e.N
  let offset := (j - i) % N
  sumR (irange i (i + offset)) (fun c =>
    if e.isCut c then
      (if c = i then 1 else st.Z_linear ((i + 1) % N) (c % N)) *
      (if (c + 1) % N = j then 1 else st.Z_linear ((c + 1) % N) ((j - 1) % N))
    else 0)

/-- `update_Z_cut`. -/
def update_Z_cut (e : Env) (st : Tables) (i j : ℤ) : Tables :=
  { st with Z_cut := upd st.Z_cut i j (st.Z_cut i j + Z_cut_val e st i j) }

/-- The per-type accumulation `Z_BPq.Q[i][j]` of `update_Z_BP` for one
matching base-pair type with dissociation constant `Kd_BPq`: hairpin and
stacked-pair closures, the inter-strand `Z_cut` term, and the four
coaxial-stack terms. -/
def bpContrib (e : Env) (st : Tables) (i j : ℤ) (Kd_BPq : ℚ) : ℚ :=
  let p := e.params
  let N := e.N
  let offset := (j - i) % N
  let C_eff_for_coax := if p.allow_strained_3WJ then st.C_eff else st.C_eff_no_BP_singlet
  let C_eff_for_BP := if p.allow_strained_3WJ then st.C_eff else st.C_eff_no_coax_singlet
  (if e.isCut i = false ∧ e.isCut (j - 1) = false then
      (1 / Kd_BPq) * (C_eff_for_BP ((i + 1) % N) ((j - 1) % N) * p.l * p.l * p.l_BP)
      + (1 / Kd_BPq) * p.C_eff_stacked_pair * st.Z_BP ((i + 1) % N) ((j - 1) % N)
    else 0)
  + (p.C_std / Kd_BPq) * st.Z_cut i j
  + (if e.isCut i = false ∧ e.isCut (j - 1) = false then
      sumR (irange (i + 2) (i + offset - 1)) (fun k =>
        if e.isCut k then 0 else
          st.Z_BP ((i + 1) % N) (k % N) * C_eff_for_coax ((k + 1) % N) ((j - 1) % N)
            * p.l ^ 2 * p.l_coax * p.K_coax / Kd_BPq)
      + sumR (irange (i + 2) (i + offset - 1)) (fun k =>
        if e.isCut (k - 1) then 0 else
          C_eff_for_coax ((i + 1) % N) ((k - 1) % N) * st.Z_BP (k % N) ((j - 1) % N)
            * p.l ^ 2 * p.l_coax * p.K_coax / Kd_BPq)
    else 0)
  + (if e.isCut i = false then
      sumR (irange (i + 2) (i + offset)) (fun k =>
        st.Z_BP ((i + 1) % N) (k % N) * st.Z_cut (k % N) j * p.C_std * p.K_coax / Kd_BPq)
    else 0)
  + (if e.isCut (j - 1) = false then
      sumR (irange i (i + offset - 1)) (fun k =>
        st.Z_cut i (k % N) * st.Z_BP (k % N) ((j - 1) % N) * p.C_std * p.K_coax / Kd_BPq)
    else 0)

/-- The two early-return gates of `update_Z_BP`: a too-short loop with
no intervening cutpoint, on either arc. -/
def minLoopGate (e : Env) (i j : ℤ) : Prop :=
  (e.anyCut i j = false ∧ (j - i - 1) % e.N < e.params.min_loop_length)
  ∨ (e.anyCut j i = false ∧ (i - j - 1) % e.N < e.params.min_loop_length)

instance (e : Env) (i j : ℤ) : Decidable (minLoopGate e i j) := by
  unfold minLoopGate; infer_instance

/-- Sum of the per-type contributions of every matching base-pair type
(the aggregation loop at the end of `update_Z_BP`). -/
def Z_BP_total (e : Env) (st : Tables) (i j : ℤ) : ℚ :=
  ((basePairTypes e.params).map (fun t =>
    if bptMatch e t i j then bpContrib e st i j t.Kd_BP else 0)).sum

/-- `update_Z_BP`: the two minimum-loop-length gates return immediately;
otherwise the aggregate table gains the sum of the per-type
contributions of every matching base-pair type. -/
def update_Z_BP (e : Env) (st : Tables) (i j : ℤ) : Tables :=
  if minLoopGate e i j then st
  else { st with Z_BP := upd st.Z_BP i j (st.Z_BP i j + Z_BP_total e st i j) }

/-- Value accumulated by the loop of `update_Z_coax`: coaxial stacks of
(i,k) and (k+1,j). -/
def Z_coax_val (e : Env) (st : Tables) (i j : ℤ) : ℚ :=
  let N := e.N
  let offset := (j - i) % N
  sumR (irange (i + 1) (i + offset - 1)) (fun k =>
    if e.isCut k then 0 else
      st.Z_BP i (k % N) * st.Z_BP ((k + 1) % N) j * e.params.K_coax)

/-- `update_Z_coax`. -/
def update_Z_coax (e : Env) (st : Tables) (i j : ℤ) : Tables :=
  { st with Z_coax := upd st.Z_coax i j (st.Z_coax i j + Z_coax_val e st i j) }

/-- Running value of `C_eff.Q[i][j]` in `update_C_eff` just before the
singlet-table snapshot: extension by one unpaired residue, then the
partner terms for j base-paired with k > i and j coax-stacked with
k > i. -/
def C_eff_base (e : Env) (st : Tables) (i j : ℤ) : ℚ :=
  let p := e.params
  let N := e.N
  let offset := (j - i) % N
  let exclude_strained_3WJ : Prop :=
    p.allow_strained_3WJ = false ∧ offset = N - 1 ∧ e.isCut j = false
  let t1 := st.C_eff i j +
    (if e.isCut (j - 1) then 0 else st.C_eff i ((j - 1) % N) * p.l)
  let C_eff_for_BP := if exclude_strained_3WJ then st.C_eff_no_coax_singlet else st.C_eff
  let t2 := t1 + sumR (irange (i + 1) (i + offset)) (fun k =>
    if e.isCut (k - 1) then 0 else
      C_eff_for_BP i ((k - 1) % N) * p.l * st.Z_BP (k % N) j * p.l_BP)
  let C_eff_for_coax := if exclude_strained_3WJ then st.C_eff_no_BP_singlet else st.C_eff
  t2 + sumR (irange (i + 1) (i + offset)) (fun k =>
    if e.isCut (k - 1) then 0 else
      C_eff_for_coax i ((k - 1) % N) * st.Z_coax (k % N) j * p.l * p.l_coax)

/-- `update_C_eff`: extension, partner terms, snapshot of the two
singlet-exclusion tables from the running value, then the self-pair and
self-coax terms. -/
def update_C_eff (e : Env) (st : Tables) (i j : ℤ) : Tables :=
  let p := e.params
  let t3 := C_eff_base e st i j
  { st with
      C_eff := upd st.C_eff i j
        (t3 + p.C_init * st.Z_BP i j * p.l_BP + p.C_init * st.Z_coax i j * p.l_coax)
      C_eff_no_coax_singlet := upd st.C_eff_no_coax_singlet i j
        (t3 + p.C_init * st.Z_BP i j * p.l_BP)
      C_eff_no_BP_singlet := upd st.C_eff_no_BP_singlet i j
        (t3 + p.C_init * st.Z_coax i j * p.l_coax) }

/-- Value written by `update_Z_linear`: extension, pair with i, pair
with k > i, coax with i, coax with k > i. -/
def Z_linear_val (e : Env) (st : Tables) (i j : ℤ) : ℚ :=
  let N := e.N
  let offset := (j - i) % N
  st.Z_linear i j +
    (if e.isCut (j - 1) then 0 else st.Z_linear i ((j - 1) % N))
  + st.Z_BP i j
  + sumR (irange (i + 1) (i + offset)) (fun k =>
    if e.isCut (k - 1) then 0 else st.Z_linear i ((k - 1) % N) * st.Z_BP (k % N) j)
  + st.Z_coax i j
  + sumR (irange (i + 1) (i + offset)) (fun k =>
    if e.isCut (k - 1) then 0 else st.Z_linear i ((k - 1) % N) * st.Z_coax (k % N) j)

/-- `update_Z_linear`. -/
def update_Z_linear (e : Env) (st : Tables) (i j : ℤ) : Tables :=
  { st with Z_linear := upd st.Z_linear i j (Z_linear_val e st i j) }

/-- One cell of the DP driver in `Partition.run`: the five update
operators in their fixed intra-cell order. -/
def stepCell (e : Env) (st : Tables) (i j : ℤ) : Tables :=
  update_Z_linear e
    (update_C_eff e
      (update_Z_coax e
        (update_Z_BP e
          (update_Z_cut e st i j) i j) i j) i j) i j

/-- The driver's iteration order: offsets 1..N-1 outer, origins 0..N-1
inner, cell (i, (i+offset) % N). -/
def cellList (e : Env) : List (ℤ × ℤ) :=
  (irange 1 e.N).flatMap (fun offset =>
    (irange 0 e.N).map (fun i => (i, (i + offset) % e.N)))

/-- Fill all DP tables (the loop nest of `Partition.run`). -/
def runTables (e : Env) : Tables :=
  (cellList e).foldl (fun st c => stepCell e st c.1 c.2) (initTables e)

/-- `get_Z_final` for one origin i: either the cycle is already broken
right before i, or the closure across the ligation i-1 to i is summed
over its five contribution families. -/
def Z_final_of (e : Env) (st : Tables) (i : ℤ) : ℚ :=
  let p := e.params
  let N := e.N
  if e.isCut (i + N - 1) then st.Z_linear i ((i - 1) % N)
  else
    st.C_eff_no_coax_singlet i ((i - 1) % N) * p.l / p.C_std
    + sumR (irange i (i + N - 1)) (fun c =>
        if e.isCut c then st.Z_linear i (c % N) * st.Z_linear ((c + 1) % N) ((i - 1) % N)
        else 0)
    + sumR (irange (i + 1) (i + N - 1)) (fun j =>
        if e.isCut j then 0 else
          p.C_eff_stacked_pair * st.Z_BP (i % N) (j % N) * st.Z_BP ((j + 1) % N) ((i - 1) % N))
    + (let C_eff_for_coax := if p.allow_strained_3WJ then st.C_eff else st.C_eff_no_BP_singlet
       sumR (irange (i + 1) (i + N - 2)) (fun j =>
        sumR (irange (j + 2) (i + N - 1)) (fun k =>
          if e.isCut j || e.isCut (k - 1) then 0 else
            st.Z_BP i (j % N) * C_eff_for_coax ((j + 1) % N) ((k - 1) % N)
              * st.Z_BP (k % N) ((i - 1) % N) * p.l * p.l * p.l_coax * p.K_coax)))
    + sumR (irange (i + 1) (i + N - 2)) (fun j =>
        sumR (irange (j + 1) (i + N - 1)) (fun k =>
          st.Z_BP i (j % N) * st.Z_cut (j % N) (k % N) * st.Z_BP (k % N) ((i - 1) % N)
            * p.K_coax))

/-- `Z_final[i]` after a full run. -/
def zFinal (e : Env) (i : ℤ) : ℚ := Z_final_of e (runTables e) i

/-- `get_bpp_matrix`: `bpp[i][j] = Z_BP[i][j] * Z_BP[j][i] * Kd_BP / Z_final[0]`. -/
def bpp (e : Env) (i j : ℤ) : ℚ :=
  (runTables e).Z_BP i j * (runTables e).Z_BP j i * e.params.Kd_BP / zFinal e 0

/-- The tuple returned by the top-level `partition` wrapper:
`(Z_final[0], bpp, bps_MFE, dZ_final[0])`.  `bps_MFE` is the empty list
set in `Partition.__init__` (the wrapper's `calc_mfe` call is commented
out), and `dZ_final[0]` is 0.0 when derivatives are disabled. -/
structure PartitionResult where
  Z : ℚ
  bppM : ℤ → ℤ → ℚ
  bps_MFE : List (ℤ × ℤ)
  dZ : ℚ

/-- The `partition` wrapper with `calc_deriv = False`. -/
def partitionRun (s : Seqs) (p : Params) (circle : Bool) : PartitionResult :=
  let e := mkEnv s circle p
  { Z := zFinal e 0
    bppM := fun i j => bpp e i j
    bps_MFE := []
    dZ := 0 }

/-- The per-origin cross-check asserted by `_run_cross_checks`. -/
def crossCheckOK (e : Env) : Prop :=
  ∀ i : ℤ, 0 ≤ i → i < e.N → |zFinal e i - zFinal e 0| / zFinal e 0 < 1 / 100000

/-! ### Concrete inputs used by the claims -/

/-- Scenario S1: the single sequence "CG", not circular, default parameters. -/
def eCGlin : Env := mkEnv (.single ['C', 'G']) false defaultParams

/-- Scenario S2: the single sequence "CG", circularized, default parameters. -/
def eCGcirc : Env := mkEnv (.single ['C', 'G']) true defaultParams

/-- The single sequence "CG", not circular, with `min_loop_length = 0`
and all other parameters at their defaults. -/
def eCGmll0 : Env := mkEnv (.single ['C', 'G']) false { defaultParams with min_loop_length := 0 }

/-- Two strands ["C", "G"], not circular, default parameters. -/
def eCGduplex : Env := mkEnv (.strands [['C'], ['G']]) false defaultParams

/-- Scenario S4: the single sequence "AAAA", not circular, default parameters. -/
def eAAAA : Env := mkEnv (.single ['A', 'A', 'A', 'A']) false defaultParams

/-- Two strands ["G", "U"], not circular, default parameters: the pair
(G, U) matches no registered base-pair type. -/
def eGU : Env := mkEnv (.strands [['G'], ['U']]) false defaultParams

/-- The single sequence "CG", not circular, with `min_loop_length = 2`. -/
def eCGmll2 : Env := mkEnv (.single ['C', 'G']) false { defaultParams with min_loop_length := 2 }

/-- The single sequence "CGCG", not circular, with `K_coax = 0`. -/
def eCGCGK0 : Env := mkEnv (.single ['C', 'G', 'C', 'G']) false { defaultParams with K_coax := 0 }

/-! ### Claim theorems (concrete evaluations) -/

/-- C1: the claim states that for every valid input all per-origin
estimates agree within 1e-5 relative tolerance, so the assertion in
`_run_cross_checks` never fails.  It does fail: on the single sequence
"CG", not circular, with `min_loop_length = 0` (defaults otherwise), the
engine computes `Z_final[0] = 1` but `Z_final[1] = 501`, violating the
code's own cross-check assertion. -/
theorem C1_origin_invariance_fails :
    zFinal eCGmll0 0 = 1 ∧ zFinal eCGmll0 1 = 501 ∧ ¬ crossCheckOK eCGmll0 := by
  refine ⟨?_, ?_, ?_⟩
  · with_unfolding_all exact of_decide_eq_true rfl
  · with_unfolding_all exact of_decide_eq_true rfl
  · intro h
    have h1 := h 1 (by norm_num) (by decide)
    revert h1
    with_unfolding_all exact of_decide_eq_true rfl

/-- C2, counterexample: on the single sequence "CG", not circular, with
default parameters, the engine does not return 5001; adjacent pairing is
excluded by the minimum-loop-length gate of `update_Z_BP`. -/
theorem C2_S1_counterexample : ¬ (zFinal eCGlin 0 = 5001) := by
  with_unfolding_all exact of_decide_eq_true rfl

/-- C2, amended: scenario S1 ("CG", linear, default parameters) yields
`Z_final[0] = 1` (the unpaired state only). -/
theorem C2_S1_value : zFinal eCGlin 0 = 1 := by
  with_unfolding_all exact of_decide_eq_true rfl

/-- C3, counterexample: the singlet-exclusion snapshot is taken from the
running `C_eff` value before the self-pair and self-coax terms, not from
the final table value.  On the two strands ["C", "G"], not circular,
with default parameters, cell (0,1) has `C_eff_no_coax_singlet = 1000`
while the claimed formula over final values gives `1000 + 1*5000*(1/5) =
2000`. -/
theorem C3_singlet_counterexample :
    ¬ ((runTables eCGduplex).C_eff_no_coax_singlet 0 1 =
        (runTables eCGduplex).C_eff 0 1 +
          eCGduplex.params.C_init * (runTables eCGduplex).Z_BP 0 1 * eCGduplex.params.l_BP) := by
  with_unfolding_all exact of_decide_eq_true rfl

/-- C5: `get_bpp_matrix` fills `bpp[i][j] = Z_BP[i][j] * Z_BP[j][i] *
Kd_BP / Z_final[0]` over the final tables, and the matrix is symmetric. -/
theorem C5_bpp_formula_and_symmetry (e : Env) (i j : ℤ) :
    bpp e i j = (runTables e).Z_BP i j * (runTables e).Z_BP j i * e.params.Kd_BP / zFinal e 0
      ∧ bpp e i j = bpp e j i := by
  refine ⟨rfl, ?_⟩
  unfold bpp
  ring

/-- C7: scenario S4 ("AAAA", linear, default parameters): no registered
base-pair type matches A with A, so `Z_BP` stays all-zero,
`Z_final[0] = 1` and the bpp matrix is identically zero. -/
theorem C7_S4_AAAA :
    zFinal eAAAA 0 = 1 ∧
      (∀ i : ℕ, i < 4 → ∀ j : ℕ, j < 4 → (runTables eAAAA).Z_BP (i : ℤ) (j : ℤ) = 0) ∧
      (∀ i : ℕ, i < 4 → ∀ j : ℕ, j < 4 → bpp eAAAA (i : ℤ) (j : ℤ) = 0) := by
  with_unfolding_all exact of_decide_eq_true rfl

/-- C8, counterexample: scenario S2 claims the MFE output for "CG"
circular is [(0,1)], but the `partition` wrapper never invokes
`calc_mfe` (the call is commented out), so the returned MFE base-pair
list is the empty list set in `Partition.__init__`. -/
theorem C8_S2_counterexample :
    (partitionRun (.single ['C', 'G']) defaultParams true).bps_MFE ≠ [((0 : ℤ), (1 : ℤ))] := by
  decide

/-- C8, amended: running the engine on "CG" circular with default
parameters returns the empty MFE base-pair list. -/
theorem C8_S2_value :
    (partitionRun (.single ['C', 'G']) defaultParams true).bps_MFE = [] := rfl

/-- C9: for every input, the MFE base-pair list returned by the
top-level `partition` wrapper is the empty list: `bps_MFE` is
initialized to [] in `Partition.__init__` and the wrapper's `calc_mfe`
call is commented out. -/
theorem C9_bps_MFE_always_empty (s : Seqs) (p : Params) (circle : Bool) :
    (partitionRun s p circle).bps_MFE = [] := rfl

/-! ### Helper lemmas: the driver writes each table only at its own cell -/

theorem upd_self (t : Tbl) (i j : ℤ) (v : ℚ) : upd t i j v i j = v := by
  simp [upd]

theorem upd_other (t : Tbl) (i j : ℤ) (v : ℚ) {a b : ℤ} (h : ¬ (a = i ∧ b = j)) :
    upd t i j v a b = t a b := by
  simp only [upd, if_neg h]

theorem upd_congr_pt {t t' : Tbl} (i j : ℤ) {v v' : ℚ} (a b : ℤ)
    (ht : t a b = t' a b) (hv : v = v') : upd t i j v a b = upd t' i j v' a b := by
  unfold upd
  by_cases h : a = i ∧ b = j <;> simp [h, ht, hv]

theorem update_Z_BP_Z_cut (e : Env) (st : Tables) (i j : ℤ) :
    (update_Z_BP e st i j).Z_cut = st.Z_cut := by
  unfold update_Z_BP; split <;> rfl

theorem update_Z_BP_Z_coax (e : Env) (st : Tables) (i j : ℤ) :
    (update_Z_BP e st i j).Z_coax = st.Z_coax := by
  unfold update_Z_BP; split <;> rfl

theorem update_Z_BP_C_eff (e : Env) (st : Tables) (i j : ℤ) :
    (update_Z_BP e st i j).C_eff = st.C_eff := by
  unfold update_Z_BP; split <;> rfl

theorem update_Z_BP_ncs (e : Env) (st : Tables) (i j : ℤ) :
    (update_Z_BP e st i j).C_eff_no_coax_singlet = st.C_eff_no_coax_singlet := by
  unfold update_Z_BP; split <;> rfl

theorem update_Z_BP_nbs (e : Env) (st : Tables) (i j : ℤ) :
    (update_Z_BP e st i j).C_eff_no_BP_singlet = st.C_eff_no_BP_singlet := by
  unfold update_Z_BP; split <;> rfl

theorem update_Z_BP_Z_linear (e : Env) (st : Tables) (i j : ℤ) :
    (update_Z_BP e st i j).Z_linear = st.Z_linear := by
  unfold update_Z_BP; split <;> rfl

theorem stepCell_Z_BP_other (e : Env) (st : Tables) (i j a b : ℤ)
    (h : ¬ (a = i ∧ b = j)) :
    (stepCell e st i j).Z_BP a b = st.Z_BP a b := by
  show (update_Z_BP e (update_Z_cut e st i j) i j).Z_BP a b = st.Z_BP a b
  unfold update_Z_BP
  split
  · rfl
  · show upd _ i j _ a b = _
    rw [upd_other _ i j _ h]
    rfl

theorem stepCell_Z_coax_other (e : Env) (st : Tables) (i j a b : ℤ)
    (h : ¬ (a = i ∧ b = j)) :
    (stepCell e st i j).Z_coax a b = st.Z_coax a b := by
  show (update_Z_coax e (update_Z_BP e (update_Z_cut e st i j) i j) i j).Z_coax a b = _
  show upd _ i j _ a b = _
  rw [upd_other _ i j _ h, update_Z_BP_Z_coax]
  rfl

theorem stepCell_C_eff_other (e : Env) (st : Tables) (i j a b : ℤ)
    (h : ¬ (a = i ∧ b = j)) :
    (stepCell e st i j).C_eff a b = st.C_eff a b := by
  show upd _ i j _ a b = _
  rw [upd_other _ i j _ h]
  show (update_Z_BP e (update_Z_cut e st i j) i j).C_eff a b = _
  rw [update_Z_BP_C_eff]
  rfl

theorem stepCell_ncs_other (e : Env) (st : Tables) (i j a b : ℤ)
    (h : ¬ (a = i ∧ b = j)) :
    (stepCell e st i j).C_eff_no_coax_singlet a b = st.C_eff_no_coax_singlet a b := by
  show upd _ i j _ a b = _
  rw [upd_other _ i j _ h]
  show (update_Z_BP e (update_Z_cut e st i j) i j).C_eff_no_coax_singlet a b = _
  rw [update_Z_BP_ncs]
  rfl

theorem stepCell_nbs_other (e : Env) (st : Tables) (i j a b : ℤ)
    (h : ¬ (a = i ∧ b = j)) :
    (stepCell e st i j).C_eff_no_BP_singlet a b = st.C_eff_no_BP_singlet a b := by
  show upd _ i j _ a b = _
  rw [upd_other _ i j _ h]
  show (update_Z_BP e (update_Z_cut e st i j) i j).C_eff_no_BP_singlet a b = _
  rw [update_Z_BP_nbs]
  rfl

/-- A fold preserves any invariant preserved by every step. -/
theorem foldl_preserve {α β : Type} (P : α → Prop) (f : α → β → α) :
    ∀ (l : List β) (a : α), P a → (∀ x c, c ∈ l → P x → P (f x c)) → P (l.foldl f a)
  | [], _, ha, _ => ha
  | c :: l, a, ha, hs =>
      foldl_preserve P f l (f a c) (hs a c (List.mem_cons_self c l) ha)
        (fun x d hd hx => hs x d (List.mem_cons_of_mem c hd) hx)

theorem mem_irange {x a b : ℤ} : x ∈ irange a b ↔ a ≤ x ∧ x < b := by
  unfold irange
  constructor
  · intro hx
    obtain ⟨k, hk, he⟩ := List.mem_map.mp hx
    rw [List.mem_range] at hk
    omega
  · intro hx
    apply List.mem_map.mpr
    refine ⟨(x - a).toNat, ?_, ?_⟩
    · rw [List.mem_range]
      omega
    · omega

theorem mem_cellList {e : Env} {c : ℤ × ℤ} (h : c ∈ cellList e) :
    ∃ o : ℤ, 1 ≤ o ∧ o < e.N ∧ 0 ≤ c.1 ∧ c.1 < e.N ∧ c.2 = (c.1 + o) % e.N := by
  simp only [cellList, List.mem_flatMap, List.mem_map] at h
  obtain ⟨o, ho, i, hi, rfl⟩ := h
  rw [mem_irange] at ho hi
  exact ⟨o, ho.1, ho.2, hi.1, hi.2, rfl⟩

theorem emod_shift_sub {a o N : ℤ} (h0 : 0 ≤ o) (h2 : o < N) :
    ((a + o) % N - a) % N = o := by
  have h1 : ((a + o) % N - a) % N = ((a + o) - a) % N := by
    conv_lhs => rw [Int.sub_emod]
    rw [Int.emod_emod_of_dvd _ (dvd_refl N), ← Int.sub_emod]
  rw [h1, add_sub_cancel_left]
  exact Int.emod_eq_of_lt h0 h2

theorem emod_sub_one {o N x : ℤ} (h1 : 1 ≤ o) (h2 : o < N) (hx : x % N = o) :
    (x - 1) % N = o - 1 := by
  have hN1 : (1 : ℤ) % N = 1 := Int.emod_eq_of_lt (by norm_num) (by omega)
  calc (x - 1) % N = (x % N - 1 % N) % N := by rw [← Int.sub_emod]
    _ = (o - 1) % N := by rw [hx, hN1]
    _ = o - 1 := Int.emod_eq_of_lt (by omega) (by omega)

theorem stepCell_Z_BP_gate (e : Env) (st : Tables) (i j : ℤ)
    (hg : minLoopGate e i j) :
    (stepCell e st i j).Z_BP = st.Z_BP := by
  show (update_Z_BP e (update_Z_cut e st i j) i j).Z_BP = _
  unfold update_Z_BP
  rw [if_pos hg]
  rfl

/-- C4: when the driver cell has offset `(j - i) mod N` below
`min_loop_length` and no cutpoint intervenes on the forward arc from i
to j, `update_Z_BP` returns before adding any term, so the final
`Z_BP[i][j]` is 0. -/
theorem C4_min_loop_exclusion (e : Env) (i j : ℤ)
    (hofs : (j - i) % e.N < e.params.min_loop_length)
    (hcut : e.anyCut i j = false) :
    (runTables e).Z_BP i j = 0 := by
  unfold runTables
  refine foldl_preserve (fun st => st.Z_BP i j = 0) _ (cellList e) (initTables e) rfl ?_
  · intro st c hc hst
    by_cases hij : i = c.1 ∧ j = c.2
    · obtain ⟨o, ho1, ho2, _, _, hco⟩ := mem_cellList hc
      obtain ⟨h1, h2⟩ := hij
      have hij' : c.2 = (i + o) % e.N := by rw [h1]; exact hco
      have hoo : (j - i) % e.N = o := by
        rw [h2, hij']; exact emod_shift_sub (by omega) ho2
      have hgate : minLoopGate e c.1 c.2 := by
        refine Or.inl ⟨?_, ?_⟩
        · rw [← h1, ← h2]; exact hcut
        · rw [← h1, ← h2]
          have : (j - i - 1) % e.N = o - 1 := emod_sub_one ho1 ho2 hoo
          rw [this]
          omega
      rw [← h1, ← h2] at hgate ⊢
      rw [stepCell_Z_BP_gate e st i j hgate]
      exact hst
    · rw [stepCell_Z_BP_other e st c.1 c.2 i j (by tauto)]
      exact hst

/-- C4 witness: on "CG", not circular, with `min_loop_length = 2`, the
cell (0,1) has offset 1 below the minimum loop length and no
intervening cutpoint, and its final `Z_BP` value is 0. -/
theorem C4_min_loop_exclusion_witness :
    ((1 : ℤ) - 0) % eCGmll2.N < eCGmll2.params.min_loop_length ∧
      eCGmll2.anyCut 0 1 = false ∧ (runTables eCGmll2).Z_BP 0 1 = 0 :=
  ⟨by decide, by decide, C4_min_loop_exclusion eCGmll2 0 1 (by decide) (by decide)⟩

/-! ### C10: the base-pair-type registry -/

theorem Z_BP_total_eq_zero (e : Env) (st : Tables) (i j : ℤ)
    (hno : ∀ t ∈ basePairTypes e.params, bptMatch e t i j = false) :
    Z_BP_total e st i j = 0 := by
  unfold Z_BP_total
  apply List.sum_eq_zero
  intro x hx
  obtain ⟨t, ht, rfl⟩ := List.mem_map.mp hx
  simp [hno t ht]

theorem stepCell_Z_BP_self_no_match (e : Env) (st : Tables) (i j : ℤ)
    (hno : ∀ t ∈ basePairTypes e.params, bptMatch e t i j = false) :
    (stepCell e st i j).Z_BP i j = st.Z_BP i j := by
  show (update_Z_BP e (update_Z_cut e st i j) i j).Z_BP i j = _
  unfold update_Z_BP
  split
  · rfl
  · show upd _ i j _ i j = _
    rw [upd_self, Z_BP_total_eq_zero e _ i j hno, add_zero]
    rfl

/-- C10: the registry built by `initialize_base_pair_types` has exactly
five entries: (C,G), (G,C), (A,U), (U,A) with dissociation constant
Kd_BP, plus the wildcard that matches only equal lowercase characters;
a position pair matching no registered type contributes nothing, so its
final `Z_BP[i][j]` stays 0. -/
theorem C10_base_pair_registry (e : Env) (i j : ℤ)
    (hno : ∀ t ∈ basePairTypes e.params, bptMatch e t i j = false) :
    (basePairTypes e.params).length = 5 ∧
      basePairTypes e.params =
        [⟨some 'C', some 'G', e.params.Kd_BP⟩, ⟨some 'G', some 'C', e.params.Kd_BP⟩,
         ⟨some 'A', some 'U', e.params.Kd_BP⟩, ⟨some 'U', some 'A', e.params.Kd_BP⟩,
         ⟨none, none, e.params.Kd_BP⟩] ∧
      (bptMatch e ⟨none, none, e.params.Kd_BP⟩ i j =
        ((e.base i).isLower && (e.base j).isLower && (e.base i == e.base j))) ∧
      (runTables e).Z_BP i j = 0 := by
  refine ⟨rfl, rfl, rfl, ?_⟩
  unfold runTables
  refine foldl_preserve (fun st => st.Z_BP i j = 0) _ (cellList e) (initTables e) rfl ?_
  intro st c _ hst
  by_cases hij : i = c.1 ∧ j = c.2
  · obtain ⟨h1, h2⟩ := hij
    rw [← h1, ← h2, stepCell_Z_BP_self_no_match e st i j hno]
    exact hst
  · rw [stepCell_Z_BP_other e st c.1 c.2 i j (by tauto)]
    exact hst

/-- C10 witness: on the two strands ["G", "U"] (uppercase), position
pair (0,1) matches no registered base-pair type and its final Z_BP
value is 0. -/
theorem C10_base_pair_registry_witness :
    (∀ t ∈ basePairTypes eGU.params, bptMatch eGU t 0 1 = false) ∧
      (runTables eGU).Z_BP 0 1 = 0 :=
  ⟨by decide, (C10_base_pair_registry eGU 0 1 (by decide)).2.2.2⟩

/-! ### C3 (amended): the singlet-exclusion snapshot relation -/

/-- The relation the two singlet-exclusion tables bear to the final
`C_eff`, `Z_BP` and `Z_coax` values at every cell. -/
def snapshotInv (p : Params) (st : Tables) : Prop :=
  ∀ a b : ℤ,
    st.C_eff_no_coax_singlet a b = st.C_eff a b - p.C_init * st.Z_coax a b * p.l_coax ∧
    st.C_eff_no_BP_singlet a b = st.C_eff a b - p.C_init * st.Z_BP a b * p.l_BP

theorem update_C_eff_snapshot₁ (e : Env) (s : Tables) (i j : ℤ) :
    (update_C_eff e s i j).C_eff_no_coax_singlet i j =
      (update_C_eff e s i j).C_eff i j
        - e.params.C_init * (update_C_eff e s i j).Z_coax i j * e.params.l_coax := by
  simp only [update_C_eff, upd_self]
  ring

theorem update_C_eff_snapshot₂ (e : Env) (s : Tables) (i j : ℤ) :
    (update_C_eff e s i j).C_eff_no_BP_singlet i j =
      (update_C_eff e s i j).C_eff i j
        - e.params.C_init * (update_C_eff e s i j).Z_BP i j * e.params.l_BP := by
  simp only [update_C_eff, upd_self]
  ring

theorem stepCell_snapshotInv (e : Env) (st : Tables) (i j : ℤ)
    (h : snapshotInv e.params st) : snapshotInv e.params (stepCell e st i j) := by
  intro a b
  by_cases hab : a = i ∧ b = j
  · obtain ⟨rfl, rfl⟩ := hab
    exact ⟨update_C_eff_snapshot₁ e _ a b, update_C_eff_snapshot₂ e _ a b⟩
  · have hh := h a b
    constructor
    · rw [stepCell_ncs_other e st i j a b hab, stepCell_C_eff_other e st i j a b hab,
        stepCell_Z_coax_other e st i j a b hab]
      exact hh.1
    · rw [stepCell_nbs_other e st i j a b hab, stepCell_C_eff_other e st i j a b hab,
        stepCell_Z_BP_other e st i j a b hab]
      exact hh.2

/-- C3, amended: after `run()`, for every cell (i,j) the two derived
tables satisfy `C_eff_no_coax_singlet = C_eff - C_init * Z_coax *
l_coax` and `C_eff_no_BP_singlet = C_eff - C_init * Z_BP * l_BP` over
the final table values: the snapshot is taken from the running `C_eff`
before the self-pair and self-coax terms are added. -/
theorem C3_singlet_tables (e : Env) (i j : ℤ) :
    (runTables e).C_eff_no_coax_singlet i j =
      (runTables e).C_eff i j
        - e.params.C_init * (runTables e).Z_coax i j * e.params.l_coax ∧
    (runTables e).C_eff_no_BP_singlet i j =
      (runTables e).C_eff i j
        - e.params.C_init * (runTables e).Z_BP i j * e.params.l_BP := by
  have h : snapshotInv e.params (runTables e) := by
    unfold runTables
    refine foldl_preserve (snapshotInv e.params) _ (cellList e) (initTables e) ?_ ?_
    · intro a b
      constructor <;> simp [initTables]
    · intro st c _ hst
      exact stepCell_snapshotInv e st c.1 c.2 hst
  exact h i j

/-! ### C6: the engine with the coaxial-stacking code paths disabled

The spec's property 7 / scenario S6 compare a `K_coax = 0` run with
"the same engine run with coax code paths disabled".  No such variant
exists in the source, so the following definitions are modelled from
the spec: every coaxial-stacking term of the recursions (the four coax
terms of `update_Z_BP`, the whole of `update_Z_coax`, the coax partner
and self-coax terms of `update_C_eff`, the coax terms of
`update_Z_linear`, and the two coax closure families of `get_Z_final`)
is deleted; everything else is kept verbatim. -/

/-- Modelled from the spec: per-type `Z_BP` contribution without the
four coaxial-stack terms. -/
def bpContribNC (e : Env) (st : Tables) (i j : ℤ) (Kd_BPq : ℚ) : ℚ :=
  let p := e.params
  let N := e.N
  let C_eff_for_BP := if p.allow_strained_3WJ then st.C_eff else st.C_eff_no_coax_singlet
  (if e.isCut i = false ∧ e.isCut (j - 1) = false then
      (1 / Kd_BPq) * (C_eff_for_BP ((i + 1) % N) ((j - 1) % N) * p.l * p.l * p.l_BP)
      + (1 / Kd_BPq) * p.C_eff_stacked_pair * st.Z_BP ((i + 1) % N) ((j - 1) % N)
    else 0)
  + (p.C_std / Kd_BPq) * st.Z_cut i j

/-- Modelled from the spec: `Z_BP` aggregation with coax disabled. -/
def Z_BP_totalNC (e : Env) (st : Tables) (i j : ℤ) : ℚ :=
  ((basePairTypes e.params).map (fun t =>
    if bptMatch e t i j then bpContribNC e st i j t.Kd_BP else 0)).sum

/-- Modelled from the spec: `update_Z_BP` with coax disabled. -/
def update_Z_BP_NC (e : Env) (st : Tables) (i j : ℤ) : Tables :=
  if minLoopGate e i j then st
  else { st with Z_BP := upd st.Z_BP i j (st.Z_BP i j + Z_BP_totalNC e st i j) }

/-- Modelled from the spec: the running `C_eff` value with the coax
partner term deleted. -/
def C_eff_baseNC (e : Env) (st : Tables) (i j : ℤ) : ℚ :=
  let p := e.params
  let N := e.N
  let offset := (j - i) % N
  let exclude_strained_3WJ : Prop :=
    p.allow_strained_3WJ = false ∧ offset = N - 1 ∧ e.isCut j = false
  let t1 := st.C_eff i j +
    (if e.isCut (j - 1) then 0 else st.C_eff i ((j - 1) % N) * p.l)
  let C_eff_for_BP := if exclude_strained_3WJ then st.C_eff_no_coax_singlet else st.C_eff
  t1 + sumR (irange (i + 1) (i + offset)) (fun k =>
    if e.isCut (k - 1) then 0 else
      C_eff_for_BP i ((k - 1) % N) * p.l * st.Z_BP (k % N) j * p.l_BP)

/-- Modelled from the spec: `update_C_eff` with the coax terms deleted;
the unused `C_eff_no_BP_singlet` table is left untouched. -/
def update_C_eff_NC (e : Env) (st : Tables) (i j : ℤ) : Tables :=
  let p := e.params
  let t2 := C_eff_baseNC e st i j
  { st with
      C_eff := upd st.C_eff i j (t2 + p.C_init * st.Z_BP i j * p.l_BP)
      C_eff_no_coax_singlet := upd st.C_eff_no_coax_singlet i j
        (t2 + p.C_init * st.Z_BP i j * p.l_BP) }

/-- Modelled from the spec: `Z_linear` value with the coax terms deleted. -/
def Z_linear_valNC (e : Env) (st : Tables) (i j : ℤ) : ℚ :=
  let N := e.N
  let offset := (j - i) % N
  st.Z_linear i j +
    (if e.isCut (j - 1) then 0 else st.Z_linear i ((j - 1) % N))
  + st.Z_BP i j
  + sumR (irange (i + 1) (i + offset)) (fun k =>
    if e.isCut (k - 1) then 0 else st.Z_linear i ((k - 1) % N) * st.Z_BP (k % N) j)

/-- Modelled from the spec: `update_Z_linear` with coax disabled. -/
def update_Z_linear_NC (e : Env) (st : Tables) (i j : ℤ) : Tables :=
  { st with Z_linear := upd st.Z_linear i j (Z_linear_valNC e st i j) }

/-- Modelled from the spec: the driver cell with the `update_Z_coax`
call removed. -/
def stepCellNC (e : Env) (st : Tables) (i j : ℤ) : Tables :=
  update_Z_linear_NC e
    (update_C_eff_NC e
      (update_Z_BP_NC e
        (update_Z_cut e st i j) i j) i j) i j

/-- Modelled from the spec: the full no-coax DP run. -/
def runTablesNC (e : Env) : Tables :=
  (cellList e).foldl (fun st c => stepCellNC e st c.1 c.2) (initTables e)

/-- Modelled from the spec: `get_Z_final` with the two coaxial closure
families deleted. -/
def Z_final_ofNC (e : Env) (st : Tables) (i : ℤ) : ℚ :=
  let p := e.params
  let N := e.N
  if e.isCut (i + N - 1) then st.Z_linear i ((i - 1) % N)
  else
    st.C_eff_no_coax_singlet i ((i - 1) % N) * p.l / p.C_std
    + sumR (irange i (i + N - 1)) (fun c =>
        if e.isCut c then st.Z_linear i (c % N) * st.Z_linear ((c + 1) % N) ((i - 1) % N)
        else 0)
    + sumR (irange (i + 1) (i + N - 1)) (fun j =>
        if e.isCut j then 0 else
          p.C_eff_stacked_pair * st.Z_BP (i % N) (j % N) * st.Z_BP ((j + 1) % N) ((i - 1) % N))

/-- Modelled from the spec: `Z_final[i]` of the no-coax run. -/
def zFinalNC (e : Env) (i : ℤ) : ℚ := Z_final_ofNC e (runTablesNC e) i

/-- Pointwise agreement of a full-engine state with a no-coax state:
the five tables that survive coax deletion agree, and the full state's
`Z_coax` table is identically zero. -/
def coaxOffRel (st st' : Tables) : Prop :=
  (∀ a b : ℤ, st.Z_BP a b = st'.Z_BP a b) ∧
  (∀ a b : ℤ, st.Z_cut a b = st'.Z_cut a b) ∧
  (∀ a b : ℤ, st.C_eff a b = st'.C_eff a b) ∧
  (∀ a b : ℤ, st.C_eff_no_coax_singlet a b = st'.C_eff_no_coax_singlet a b) ∧
  (∀ a b : ℤ, st.Z_linear a b = st'.Z_linear a b) ∧
  (∀ a b : ℤ, st.Z_coax a b = 0)

theorem sumR_zero (l : List ℤ) : sumR l (fun _ => 0) = 0 := by
  unfold sumR
  apply List.sum_eq_zero
  intro y hy
  obtain ⟨x, _, h⟩ := List.mem_map.mp hy
  exact h.symm

theorem sumR_congr {l : List ℤ} {f g : ℤ → ℚ} (h : ∀ x ∈ l, f x = g x) :
    sumR l f = sumR l g := by
  unfold sumR
  rw [List.map_congr_left h]

theorem update_Z_cut_coax_off (e : Env) {st st' : Tables} (i j : ℤ)
    (hrel : coaxOffRel st st') :
    coaxOffRel (update_Z_cut e st i j) (update_Z_cut e st' i j) := by
  obtain ⟨hBP, hcut, hC, hnc, hlin, hz⟩ := hrel
  have hval : Z_cut_val e st i j = Z_cut_val e st' i j := by
    unfold Z_cut_val
    apply sumR_congr
    intro c _
    simp only [hlin]
  exact ⟨hBP, fun a b => upd_congr_pt i j a b (hcut a b) (by rw [hcut i j, hval]),
    hC, hnc, hlin, hz⟩

theorem bpContrib_coax_off (e : Env) {st st' : Tables} (i j : ℤ) (Kd : ℚ)
    (hK : e.params.K_coax = 0)
    (hBP : ∀ a b : ℤ, st.Z_BP a b = st'.Z_BP a b)
    (hcut : ∀ a b : ℤ, st.Z_cut a b = st'.Z_cut a b)
    (hC : ∀ a b : ℤ, st.C_eff a b = st'.C_eff a b)
    (hnc : ∀ a b : ℤ, st.C_eff_no_coax_singlet a b = st'.C_eff_no_coax_singlet a b) :
    bpContrib e st i j Kd = bpContribNC e st' i j Kd := by
  unfold bpContrib bpContribNC
  by_cases hA : e.params.allow_strained_3WJ = true <;>
    simp [hA, hK, hBP, hC, hnc, hcut, sumR_zero]

theorem update_Z_BP_coax_off (e : Env) {st st' : Tables} (i j : ℤ)
    (hK : e.params.K_coax = 0) (hrel : coaxOffRel st st') :
    coaxOffRel (update_Z_BP e st i j) (update_Z_BP_NC e st' i j) := by
  obtain ⟨hBP, hcut, hC, hnc, hlin, hz⟩ := hrel
  unfold update_Z_BP update_Z_BP_NC
  by_cases hg : minLoopGate e i j
  · rw [if_pos hg, if_pos hg]
    exact ⟨hBP, hcut, hC, hnc, hlin, hz⟩
  · rw [if_neg hg, if_neg hg]
    have htot : Z_BP_total e st i j = Z_BP_totalNC e st' i j := by
      unfold Z_BP_total Z_BP_totalNC
      congr 1
      apply List.map_congr_left
      intro t _
      by_cases hm : bptMatch e t i j = true
      · rw [if_pos hm, if_pos hm]
        exact bpContrib_coax_off e i j t.Kd_BP hK hBP hcut hC hnc
      · rw [if_neg hm, if_neg hm]
    exact ⟨fun a b => upd_congr_pt i j a b (hBP a b) (by rw [hBP i j, htot]),
      hcut, hC, hnc, hlin, hz⟩

theorem Z_coax_val_zero (e : Env) (st : Tables) (i j : ℤ)
    (hK : e.params.K_coax = 0) : Z_coax_val e st i j = 0 := by
  unfold Z_coax_val
  simp only [hK, mul_zero, ite_self, sumR_zero]

theorem update_Z_coax_coax_off (e : Env) {st st' : Tables} (i j : ℤ)
    (hK : e.params.K_coax = 0) (hrel : coaxOffRel st st') :
    coaxOffRel (update_Z_coax e st i j) st' := by
  obtain ⟨hBP, hcut, hC, hnc, hlin, hz⟩ := hrel
  refine ⟨hBP, hcut, hC, hnc, hlin, ?_⟩
  intro a b
  show upd st.Z_coax i j (st.Z_coax i j + Z_coax_val e st i j) a b = 0
  unfold upd
  split
  · rw [hz i j, Z_coax_val_zero e st i j hK, add_zero]
  · exact hz a b

theorem update_C_eff_coax_off (e : Env) {st st' : Tables} (i j : ℤ)
    (hrel : coaxOffRel st st') :
    coaxOffRel (update_C_eff e st i j) (update_C_eff_NC e st' i j) := by
  obtain ⟨hBP, hcut, hC, hnc, hlin, hz⟩ := hrel
  have hbase : C_eff_base e st i j = C_eff_baseNC e st' i j := by
    unfold C_eff_base C_eff_baseNC
    by_cases hEx : e.params.allow_strained_3WJ = false ∧
        (j - i) % e.N = e.N - 1 ∧ e.isCut j = false <;>
      simp [hEx, hz, hC, hnc, hBP, sumR_zero]
  refine ⟨hBP, hcut, ?_, ?_, hlin, hz⟩
  · intro a b
    refine upd_congr_pt i j a b (hC a b) ?_
    rw [hbase, hBP i j, hz i j]
    ring
  · intro a b
    refine upd_congr_pt i j a b (hnc a b) ?_
    rw [hbase, hBP i j]

theorem update_Z_linear_coax_off (e : Env) {st st' : Tables} (i j : ℤ)
    (hrel : coaxOffRel st st') :
    coaxOffRel (update_Z_linear e st i j) (update_Z_linear_NC e st' i j) := by
  obtain ⟨hBP, hcut, hC, hnc, hlin, hz⟩ := hrel
  have hval : Z_linear_val e st i j = Z_linear_valNC e st' i j := by
    unfold Z_linear_val Z_linear_valNC
    simp only [hz, mul_zero, ite_self, sumR_zero, add_zero, hlin, hBP]
  exact ⟨hBP, hcut, hC, hnc,
    fun a b => upd_congr_pt i j a b (hlin a b) hval, hz⟩

theorem stepCell_coax_off (e : Env) {st st' : Tables} (i j : ℤ)
    (hK : e.params.K_coax = 0) (hrel : coaxOffRel st st') :
    coaxOffRel (stepCell e st i j) (stepCellNC e st' i j) :=
  update_Z_linear_coax_off e i j
    (update_C_eff_coax_off e i j
      (update_Z_coax_coax_off e i j hK
        (update_Z_BP_coax_off e i j hK
          (update_Z_cut_coax_off e i j hrel))))

/-- Two folds over the same list preserve a binary relation preserved
by every parallel step. -/
theorem foldl_rel {α β : Type} (R : α → α → Prop) (f g : α → β → α) :
    ∀ (l : List β) (a a' : α), R a a' →
      (∀ x x' c, R x x' → R (f x c) (g x' c)) → R (l.foldl f a) (l.foldl g a')
  | [], _, _, h, _ => h
  | c :: l, a, a', h, hs => foldl_rel R f g l (f a c) (g a' c) (hs a a' c h) hs

theorem runTables_coax_off (e : Env) (hK : e.params.K_coax = 0) :
    coaxOffRel (runTables e) (runTablesNC e) := by
  unfold runTables runTablesNC
  refine foldl_rel coaxOffRel _ _ (cellList e) (initTables e) (initTables e) ?_ ?_
  · exact ⟨fun _ _ => rfl, fun _ _ => rfl, fun _ _ => rfl, fun _ _ => rfl,
      fun _ _ => rfl, fun _ _ => rfl⟩
  · intro x x' c hxx
    exact stepCell_coax_off e c.1 c.2 hK hxx

theorem Z_final_coax_off (e : Env) {st st' : Tables} (i : ℤ)
    (hK : e.params.K_coax = 0) (hrel : coaxOffRel st st') :
    Z_final_of e st i = Z_final_ofNC e st' i := by
  obtain ⟨hBP, hcut, hC, hnc, hlin, hz⟩ := hrel
  unfold Z_final_of Z_final_ofNC
  by_cases hc : e.isCut (i + e.N - 1) = true
  · rw [if_pos hc, if_pos hc]
    exact hlin _ _
  · rw [if_neg hc, if_neg hc]
    simp only [hK, mul_zero, ite_self, sumR_zero, add_zero, hnc, hlin, hBP]

/-- C6: with `K_coax = 0`, every cell of the final `Z_coax` table is 0
and every per-origin `Z_final` estimate of the full engine equals that
of the engine with the coaxial-stacking code paths disabled. -/
theorem C6_coax_off (e : Env) (hK : e.params.K_coax = 0) :
    (∀ a b : ℤ, (runTables e).Z_coax a b = 0) ∧
      (∀ i : ℤ, zFinal e i = zFinalNC e i) := by
  have hrel := runTables_coax_off e hK
  exact ⟨hrel.2.2.2.2.2, fun i => Z_final_coax_off e i hK hrel⟩

/-- C6 witness: on "CGCG", not circular, with `K_coax = 0` (defaults
otherwise), `Z_coax[0][2] = 0` and `Z_final[0]` agrees with the no-coax
engine. -/
theorem C6_coax_off_witness :
    eCGCGK0.params.K_coax = 0 ∧ (runTables eCGCGK0).Z_coax 0 2 = 0 ∧
      zFinal eCGCGK0 0 = zFinalNC eCGCGK0 0 :=
  ⟨rfl, (C6_coax_off eCGCGK0 rfl).1 0 2, (C6_coax_off eCGCGK0 rfl).2 0⟩

end Zetafold
